import Mathlib

set_option autoImplicit false
set_option linter.unnecessarySeqFocus false

namespace ConfNets

/-! Shallow embedding of `src/confnets/models/generalized_unet.py`.

Tensors are modelled at the level the claims speak about: shapes are lists of
natural numbers (spatial shapes of rank D = 3 in the source), channel counts are
naturals, and the opaque processing blocks (`ConvNormActivation`,
`SamePadResBlock`, `UpsampleAndCrop`, `Identity`, `Crop`) are represented by
structures recording the constructor arguments the source passes to them.
Fallible code (Python `assert`, `KeyError`, `IndexError`) returns `Option`. -/

/-! Python integer and slice semantics -/

/-- Python `int(d/2)`: true division followed by `int`, i.e. division truncating
toward zero. `Int.tdiv` is exactly truncation toward zero. -/
def pyHalf (d : Int) : Int := Int.tdiv d 2

/-- Python `d % 2`: the remainder is always non-negative for a positive modulus,
which is Euclidean remainder. -/
def pyMod2 (d : Int) : Int := Int.emod d 2

/-- Python slice endpoint normalization for a sequence of length `n`: a negative
index counts from the end, then the result is clamped into `[0, n]`. -/
def pySliceIdx (n : Nat) (i : Int) : Nat :=
  (min (max (if i < 0 then i + n else i) 0) (n : Int)).toNat

/-- Length of the Python slice `l[a:b]` of a sequence of length `n`. -/
def pySliceLen (n : Nat) (a b : Int) : Nat :=
  pySliceIdx n b - pySliceIdx n a

/-! Spatial Aligner: crop-to-match (`MergeSkipConnAndAutoCrop.forward`) -/

/-- Per-axis shape difference `orig - trg` (`diff = [orig-trg for orig, trg in zip(...)]`). -/
def shapeDiff (orig trg : List Nat) : List Int :=
  List.zipWith (fun (o t : Nat) => (o : Int) - (t : Int)) orig trg

/-- Per-axis crop slice bounds, from `MergeSkipConnAndAutoCrop.forward`:
`left_crops = [int(d/2) for d in diff]` and
`right_crops = [shp-int(d/2) if d%2==0 else shp-(int(d/2)+1) for d, shp in zip(diff, orig_shape)]`.
Each pair is `(left, right)` of the slice `slice(lft, rgt)` applied to that axis. -/
def cropBounds (diff : List Int) (origShape : List Nat) : List (Int × Int) :=
  List.zipWith
    (fun (d : Int) (shp : Nat) =>
      (pyHalf d, if pyMod2 d = 0 then (shp : Int) - pyHalf d else (shp : Int) - (pyHalf d + 1)))
    diff origShape

/-- Shape of a tensor after applying per-axis Python slices. -/
def applyCrop (shape : List Nat) (bounds : List (Int × Int)) : List Nat :=
  List.zipWith (fun (n : Nat) (b : Int × Int) => pySliceLen n b.1 b.2) shape bounds

/-- The shape-level effect of the crop block of `MergeSkipConnAndAutoCrop.forward`
(lines 356-371): if the spatial shapes differ, compute `diff = skip - tensor`; if all
axes are non-negative crop the skip connection, otherwise swap roles and crop the
backbone tensor instead.  Returns the pair (tensor spatial shape, skip spatial shape)
after the crop step. -/
def mergeCropShapes (tensorSp skipSp : List Nat) : List Nat × List Nat :=
  if tensorSp = skipSp then (tensorSp, skipSp)
  else
    let diff := shapeDiff skipSp tensorSp
    if diff.all (fun d => d ≥ 0) then
      (tensorSp, applyCrop skipSp (cropBounds diff skipSp))
    else
      let diff2 := shapeDiff tensorSp skipSp
      (applyCrop tensorSp (cropBounds diff2 tensorSp), skipSp)

/-- The projection module chosen by `MergeSkipConnAndAutoCrop.__init__`. -/
inductive MergeConv where
  | identity : MergeConv
  | convNormActivation (inCh outCh : Nat) (kernelSize : List Nat) (dim : Nat)
      (activation : String) (normalization : String) (nbNormGroups : Nat) : MergeConv
deriving DecidableEq, Repr

/-- Embeds `MergeSkipConnAndAutoCrop.__init__` (lines 344-353): identity when the decoder and
skip channel counts agree, else a 1×1×1 `ConvNormActivation` from the skip channels to
the decoder channels. -/
def mergeSkipInit (nbPrevFmaps nbFmapsSkipConn : Nat) : MergeConv :=
  if nbPrevFmaps = nbFmapsSkipConn then MergeConv.identity
  else MergeConv.convNormActivation nbFmapsSkipConn nbPrevFmaps [1, 1, 1] 3 "ReLU" "GroupNorm" 16

/-- Modelled from the spec: the blocks of `..layers` are opaque collaborators (§6);
§4.2 says the skip tensor "passes through unchanged" through `Identity` and that the
1×1×1 channel-projection block maps the skip channels to the decoder channel count,
leaving the spatial shape unchanged.  Acts on (channels, spatial shape). -/
def mergeConvApply : MergeConv → Nat × List Nat → Nat × List Nat
  | MergeConv.identity, s => s
  | MergeConv.convNormActivation _ outCh _ _ _ _ _, s => (outCh, s.2)

/-- PyTorch broadcasting of one dimension in `a + b`: sizes must agree or one be 1. -/
def broadcastDim (a b : Nat) : Option Nat :=
  if a = b then some a else if a = 1 then some b else if b = 1 then some a else none

/-- PyTorch broadcasting of equal-rank shapes (the two operands of the merge addition
always have rank 2+D); `none` is the RuntimeError raised on incompatible sizes. -/
def broadcastShape : List Nat → List Nat → Option (List Nat)
  | [], [] => some []
  | a :: as, b :: bs =>
      match broadcastDim a b, broadcastShape as bs with
      | some c, some cs => some (c :: cs)
      | _, _ => none
  | _, _ => none

/-- Shape-level result of `MergeSkipConnAndAutoCrop.forward`: crop step, then
`self.conv(skip_connection) + tensor`.  Arguments and result are (channels, spatial
shape); `none` models a PyTorch shape error in the addition. -/
def mergeForward (m : MergeConv) (tensor skipConn : Nat × List Nat) :
    Option (Nat × List Nat) :=
  let cropped := mergeCropShapes tensor.2 skipConn.2
  let conv := mergeConvApply m (skipConn.1, cropped.2)
  match broadcastDim conv.1 tensor.1, broadcastShape conv.2 cropped.1 with
  | some ch, some sp => some (ch, sp)
  | _, _ => none

/-! Spatial Aligner: pad-to-match (`AutoPad.forward`) -/

/-- The argument tuple the source passes to `torch.nn.functional.pad`: per-axis
(left, right) padding amounts listed last-spatial-dimension first, plus the mode and
constant fill value. -/
structure PadPlan where
  pad : List (Int × Int)
  mode : String
  value : Int
deriving DecidableEq, Repr

/-- Shape-level semantics of `F.pad`: the pad list is given last-dimension-first, so it
is zipped against the reversed shape. -/
def applyPad (shape : List Nat) (pad : List (Int × Int)) : List Nat :=
  (List.zipWith (fun (n : Nat) (p : Int × Int) => (p.1 + (n : Int) + p.2).toNat)
    shape.reverse pad).reverse

/-- Embeds `AutoPad.forward` (lines 383-396) at shape level.  `toBePaddedShape` and
`outShapeFull` are full shapes (batch, channels, spatial); the source compares the
`[2:]` spatial parts.  Returns the pad plan (`none` when no padding was needed) and the
resulting full shape; `none` overall models a failed `assert`. -/
def autoPadForward (toBePaddedShape outShapeFull : List Nat) :
    Option (Option PadPlan × List Nat) :=
  let inShape := toBePaddedShape.drop 2
  let outShape := outShapeFull.drop 2
  if inShape = outShape then some (none, toBePaddedShape)
  else
    let diff := shapeDiff outShape inShape
    if diff.all (fun d => d ≥ 0) then
      if diff.all (fun d => pyMod2 d = 0) then
        let pad := diff.reverse.map (fun d => (pyHalf d, pyHalf d))
        some (some { pad := pad, mode := "constant", value := 0 },
              toBePaddedShape.take 2 ++ applyPad inShape pad)
      else none
    else none

/-! Python dictionaries for the output-branch configuration -/

/-- A Python dict key as used for `output_branches_specs`: the source tries the int key
`i` first and falls back to the string key `str(i)`. -/
inductive PyKey where
  | kInt (n : Int)
  | kStr (s : String)
deriving DecidableEq, Repr

/-- A field value inside one branch-spec dict. -/
inductive PyVal where
  | vInt (n : Int)
  | vStr (s : String)
  | vNone
deriving DecidableEq, Repr

/-- One branch-spec dict: insertion-ordered association list with unique keys. -/
abbrev PySpec := List (String × PyVal)

/-- The caller's `output_branches_specs` dict in its dict form. -/
abbrev BranchesDict := List (PyKey × PySpec)

/-- Python `spec[k]` lookup. -/
def specLookup (s : PySpec) (k : String) : Option PyVal :=
  (s.find? (fun p => p.1 == k)).map Prod.snd

/-- Python `spec[k] = v`: replace in place when the key exists, else append. -/
def specSet : PySpec → String → PyVal → PySpec
  | [], k, v => [(k, v)]
  | (k0, v0) :: rest, k, v =>
      if k0 = k then (k0, v) :: rest else (k0, v0) :: specSet rest k v

/-- Python `base.update(upd)`: every key of `upd` overwrites or extends `base`. -/
def specUpdate (base upd : PySpec) : PySpec :=
  upd.foldl (fun acc p => specSet acc p.1 p.2) base

/-- Python `d[k]` on the branches dict. -/
def dictFind (d : BranchesDict) (k : PyKey) : Option PySpec :=
  (d.find? (fun p => p.1 == k)).map Prod.snd

/-- Python `d.pop(k)`: the value at `k` together with the dict after the call (the key
removed — `pop` mutates the dict); `none` is the `KeyError`. -/
def dictPop (d : BranchesDict) (k : PyKey) : Option (PySpec × BranchesDict) :=
  match dictFind d k with
  | none => none
  | some v => some (v, d.eraseP (fun p => p.1 == k))

/-- Slot lookup of `__init__` lines 130-134: try the int key `i`, fall back to the
string key `str(i)`; `none` is the failed `assert idx in output_branches_specs`. -/
def resolveSlot (d : BranchesDict) (i : Nat) : Option PySpec :=
  match dictFind d (PyKey.kInt i) with
  | some s => some s
  | none => dictFind d (PyKey.kStr (toString i))

/-- Lines 128-135: one fresh `deepcopy` of the global template per declared slot, each
updated with its numbered override. -/
def resolveSlots (d : BranchesDict) (globalSpecs : PySpec) (n : Nat) : Option (List PySpec) :=
  (List.range n).mapM (fun i => (resolveSlot d i).map (fun ov => specUpdate globalSpecs ov))

/-- Shorthand expansion of `__init__` lines 124-136.  Returns the state of the
caller-supplied dict after the call (the `pop` of `"global"` has removed that key)
together with the fully resolved branch-spec list; `none` models a `KeyError` or a
failed `assert`. -/
def expandBranchSpecs (d : BranchesDict) : Option (BranchesDict × List PySpec) :=
  match dictPop d (PyKey.kStr "global") with
  | none => none
  | some (globalSpecs, rest) =>
      match resolveSlots rest globalSpecs rest.length with
      | none => none
      | some specs => some (rest, specs)

/-! Output Branch Router -/

/-- The per-branch checks of `__init__` lines 142-145: `out_channels` must be present,
`depth` must be present and an int.  Returns the branch depth. -/
def checkBranchSpec (s : PySpec) : Option Int :=
  match specLookup s "out_channels" with
  | none => none
  | some _ =>
      match specLookup s "depth" with
      | some (PyVal.vInt n) => some n
      | _ => none

/-- Depths of all branches, failing if any branch fails its checks. -/
def branchDepths (specs : List PySpec) : Option (List Int) :=
  specs.mapM checkBranchSpec

/-- Lines 147-150: record branch `i` under its depth, appending to the existing entry
or inserting a new one at the end (Python dict insertion order). -/
def branchIdxsAppend (m : List (Int × List Nat)) (d : Int) (i : Nat) :
    List (Int × List Nat) :=
  if m.any (fun p => p.1 == d) then
    m.map (fun p => if p.1 == d then (p.1, p.2 ++ [i]) else p)
  else m ++ [(d, [i])]

/-- The `for i, branch_specs in enumerate(...)` loop over branch depths, threading the
running index. -/
def buildBranchIdxsAux : Nat → List Int → List (Int × List Nat) → List (Int × List Nat)
  | _, [], m => m
  | i, d :: rest, m => buildBranchIdxsAux (i + 1) rest (branchIdxsAppend m d i)

/-- Embeds `self.output_branches_indices`: the depth → branch-positions map, insertion order
within a depth and declaration order across depths. -/
def buildBranchIdxs (depths : List Int) : List (Int × List Nat) :=
  buildBranchIdxsAux 0 depths []

/-- An opaque crop-slice payload as stored in `decoder_crops`. -/
abbrev CropSlice := String

/-- Python `self.decoder_crops.get(k, None)`. -/
def cropsGet (crops : List (Nat × CropSlice)) (k : Nat) : Option CropSlice :=
  (crops.find? (fun p => p.1 == k)).map Prod.snd

/-- The kernel-size argument as passed in the source: a bare int or a tuple. -/
inductive KSize where
  | int (n : Nat)
  | shape (l : List Nat)
deriving DecidableEq, Repr

/-- Constructor arguments of an opaque `ConvNormActivation` block. -/
structure ConvSpec where
  inCh : Nat
  outCh : Nat
  kernelSize : KSize
  dim : Nat
  activation : String
  normalization : Option String
  nbNormGroups : Option Nat
deriving DecidableEq, Repr

/-- One output head: the projection block and the optional trailing crop. -/
structure OutputBranch where
  conv : ConvSpec
  crop : Option CropSlice
deriving DecidableEq, Repr

/-- Embeds `construct_output_branch` (lines 196-211): a 1-kernel `ConvNormActivation` from
`decoder_fmaps[depth]` to the requested channels, followed by the crop window of that
same depth when one is configured; `none` models an out-of-range `decoder_fmaps[depth]`
(the claims only involve non-negative branch depths). -/
def constructOutputBranch (decoderFmaps : List Nat) (decoderCrops : List (Nat × CropSlice))
    (depth : Nat) (outChannels : Nat) (activation : String) (normalization : Option String) :
    Option OutputBranch :=
  match decoderFmaps[depth]? with
  | none => none
  | some f =>
      some { conv := { inCh := f, outCh := outChannels, kernelSize := KSize.int 1, dim := 3,
                       activation := activation, normalization := normalization,
                       nbNormGroups := none },
             crop := cropsGet decoderCrops depth }

/-! Stage Factory -/

/-- Constructor arguments of an opaque `UpsampleAndCrop` block. -/
structure UpsampleAndCropSpec where
  scaleFactor : List Nat
  mode : String
  cropSlice : Option CropSlice
deriving DecidableEq, Repr

/-- Embeds `construct_upsampling_module` (lines 262-277): a 1×1×1 channel-reduction
`ConvNormActivation` from `decoder_fmaps[depth+1]` to `decoder_fmaps[depth]`, then an
`UpsampleAndCrop` with `scale_factors[depth]` and the crop slice
`decoder_crops.get(depth+1, None)`; `none` models an index error or the failed
anisotropy `assert`. -/
def constructUpsamplingModule (decoderFmaps : List Nat) (scaleFactors : List (List Nat))
    (decoderCrops : List (Nat × CropSlice)) (upsamplingMode : String) (depth : Nat) :
    Option (ConvSpec × UpsampleAndCropSpec) :=
  match decoderFmaps[depth + 1]?, decoderFmaps[depth]?, scaleFactors[depth]? with
  | some fIn, some fOut, some sf =>
      if sf[0]? = some 1 ∧ sf[1]? ≠ sf[2]? then none
      else
        some ({ inCh := fIn, outCh := fOut, kernelSize := KSize.shape [1, 1, 1], dim := 3,
                activation := "ReLU", normalization := some "GroupNorm",
                nbNormGroups := some 16 },
              { scaleFactor := sf, mode := upsamplingMode,
                cropSlice := cropsGet decoderCrops (depth + 1) })
  | _, _, _ => none

/-- Constructor arguments of an opaque `SamePadResBlock`. -/
structure ResBlockSpec where
  fIn : Nat
  fInner : Nat
  preKernelSize : List Nat
  kernelSize : List Nat
  activation : String
  normalization : String
  nbNormGroups : Nat
deriving DecidableEq, Repr

/-- The block list of `concatenate_res_blocks`: one `SamePadResBlock` per flag,
`True` → (3,3,3) kernels, `False` → (1,3,3) kernels, with `f_in = f_out` after the
first block. -/
def resBlocksChain (fIn fOut : Nat) : List Bool → List ResBlockSpec
  | [] => []
  | is3D :: rest =>
      { fIn := fIn, fInner := fOut,
        preKernelSize := if is3D then [3, 3, 3] else [1, 3, 3],
        kernelSize := if is3D then [3, 3, 3] else [1, 3, 3],
        activation := "ReLU", normalization := "GroupNorm", nbNormGroups := 16 }
        :: resBlocksChain fOut fOut rest

/-- Embeds `concatenate_res_blocks` (lines 295-323); `none` is the failed
`assert f_out % 16 == 0`. -/
def concatenateResBlocks (fIn fOut : Nat) (blocksSpec : List Bool) :
    Option (List ResBlockSpec) :=
  if fOut % 16 = 0 then some (resBlocksChain fIn fOut blocksSpec) else none

/-- An encoder stage: the optional depth-0 stem conv and the residual block chain. -/
structure EncoderModule where
  firstConv : Option ConvSpec
  resBlocks : List ResBlockSpec
deriving DecidableEq, Repr

/-- The input channel count of `construct_encoder_module` (lines 214-219). -/
def encoderFIn (inChannels : Nat) (encoderFmaps : List Nat) (numberMultiscaleInputs : Nat)
    (depth : Nat) : Option Nat :=
  if depth = 0 then some inChannels
  else if depth < numberMultiscaleInputs then
    (encoderFmaps[depth - 1]?).map (fun f => f + inChannels)
  else encoderFmaps[depth - 1]?

/-- Embeds `construct_encoder_module` (lines 213-237): at depth 0 a (1,5,5) stem
`ConvNormActivation` precedes the residual chain (which then runs `f_out → f_out`);
deeper stages are the residual chain alone from `f_in`. -/
def constructEncoderModule (inChannels : Nat) (encoderFmaps : List Nat)
    (numberMultiscaleInputs : Nat) (resBlocksSpecs : List (List Bool)) (depth : Nat) :
    Option EncoderModule :=
  match encoderFIn inChannels encoderFmaps numberMultiscaleInputs depth,
        encoderFmaps[depth]?, resBlocksSpecs[depth]? with
  | some fIn, some fOut, some blocksSpec =>
      if depth = 0 then
        (concatenateResBlocks fOut fOut blocksSpec).map (fun blocks =>
          { firstConv := some { inCh := fIn, outCh := fOut,
                                kernelSize := KSize.shape [1, 5, 5], dim := 3,
                                activation := "ReLU", normalization := some "GroupNorm",
                                nbNormGroups := some 16 },
            resBlocks := blocks })
      else
        (concatenateResBlocks fIn fOut blocksSpec).map (fun blocks =>
          { firstConv := none, resBlocks := blocks })
  | _, _, _ => none

/-! Forward Executor: output collection -/

/-- Modelled from the spec: `EncoderDecoderSkeleton` (`unet.py`) is not part of the
given sources; §8 states a constructed topology holds exactly `depth`
decoder/downsample/upsample/merge stages, so `range(len(self.decoder_modules))` in
`forward` enumerates depths `0 .. depth-1`. -/
def decoderModuleCount (modelDepth : Nat) : Nat := modelDepth

/-- The decoder depths in the order `forward` visits them (the `reversed(list(zip(...)))`
loop runs deepest first). -/
def decodeDepths (modelDepth : Nat) : List Nat :=
  (List.range (decoderModuleCount modelDepth)).reverse

/-- Python `self.output_branches_indices[depth]` guarded by
`depth in self.output_branches_indices`. -/
def idxsGet (m : List (Int × List Nat)) (d : Int) : Option (List Nat) :=
  (m.find? (fun p => p.1 == d)).map Prod.snd

/-- The body of the decode loop restricted to output collection: at depth `d`, every
branch anchored there writes `evalHead d i` into its declared position `i`
(`outputs[branch_idx] = self.output_branches[branch_idx](current)`). -/
def scatterStep {α : Type} (branchIdxs : List (Int × List Nat)) (evalHead : Nat → Nat → α)
    (outs : List (Option α)) (d : Nat) : List (Option α) :=
  match idxsGet branchIdxs (d : Int) with
  | none => outs
  | some idxs => idxs.foldl (fun acc i => acc.set i (some (evalHead d i))) outs

/-- The output collection of `forward` (lines 179-189): `outputs = [None, ...]`, then
the deepest-first decode loop scattering head results into declared positions.
`evalHead d i` abstracts applying output head `i` to the decoder tensor at depth `d`. -/
def scatterOutputs {α : Type} (branchIdxs : List (Int × List Nat)) (nbBranches : Nat)
    (evalHead : Nat → Nat → α) (depths : List Nat) : List (Option α) :=
  depths.foldl (scatterStep branchIdxs evalHead) (List.replicate nbBranches none)

/-- Lines 179-194 of `forward`: the returned output collection, with the original
inputs appended when `return_input` is set (`outputs = outputs + list(inputs)`). -/
def forwardOutputs {α : Type} (modelDepth : Nat) (depths : List Int) (returnInput : Bool)
    (evalHead : Nat → Nat → α) (inputs : List α) : List (Option α) :=
  let outs := scatterOutputs (buildBranchIdxs depths) depths.length evalHead
    (decodeDepths modelDepth)
  if returnInput then outs ++ inputs.map some else outs

/-! Concrete configuration values used as test vectors (the spec §8 scenarios) -/

/-- The global-plus-override example of spec §8. -/
def sigmoidBranchesDict : BranchesDict :=
  [(PyKey.kStr "global", [("activation", PyVal.vStr "Sigmoid")]),
   (PyKey.kStr "0", [("out_channels", PyVal.vInt 1), ("depth", PyVal.vInt 0)]),
   (PyKey.kStr "1", [("out_channels", PyVal.vInt 3), ("depth", PyVal.vInt 1)])]

/-- The state of `sigmoidBranchesDict` after expansion (the `"global"` key popped). -/
def sigmoidRemainingDict : BranchesDict :=
  [(PyKey.kStr "0", [("out_channels", PyVal.vInt 1), ("depth", PyVal.vInt 0)]),
   (PyKey.kStr "1", [("out_channels", PyVal.vInt 3), ("depth", PyVal.vInt 1)])]

/-- The two fully-resolved branch specs produced from `sigmoidBranchesDict`. -/
def sigmoidResolvedSpecs : List PySpec :=
  [[("activation", PyVal.vStr "Sigmoid"), ("out_channels", PyVal.vInt 1),
    ("depth", PyVal.vInt 0)],
   [("activation", PyVal.vStr "Sigmoid"), ("out_channels", PyVal.vInt 3),
    ("depth", PyVal.vInt 1)]]

/-- A dict form declaring two branch slots but providing overrides "0" and "2", so
slot 1 is never resolved. -/
def unresolvedSlotsDict : BranchesDict :=
  [(PyKey.kStr "global", [("activation", PyVal.vStr "Sigmoid")]),
   (PyKey.kStr "0", [("out_channels", PyVal.vInt 1), ("depth", PyVal.vInt 0)]),
   (PyKey.kStr "2", [("out_channels", PyVal.vInt 2), ("depth", PyVal.vInt 1)])]

/-! Helper lemmas -/

theorem broadcastDim_self (a : Nat) : broadcastDim a a = some a := by
  simp [broadcastDim]

theorem broadcastShape_self (sp : List Nat) : broadcastShape sp sp = some sp := by
  induction sp with
  | nil => rfl
  | cons a as ih => simp [broadcastShape, broadcastDim_self, ih]

/-! C9 -/

/-- C9: the merge stage uses an identity on the skip tensor when the decoder and skip
channel counts agree and a 1×1×1 channel projection from the skip channels to the
decoder channels otherwise, and (for aligned shapes) combines the two tensors by
elementwise addition: the result keeps the decoder channel count and the common
spatial shape (it is not a channel concatenation). -/
theorem C9_merge_additive (chDec chSkip : Nat) (sp : List Nat) :
    (chDec = chSkip → mergeSkipInit chDec chSkip = MergeConv.identity) ∧
    (chDec ≠ chSkip →
      mergeSkipInit chDec chSkip =
        MergeConv.convNormActivation chSkip chDec [1, 1, 1] 3 "ReLU" "GroupNorm" 16) ∧
    mergeForward (mergeSkipInit chDec chSkip) (chDec, sp) (chSkip, sp) = some (chDec, sp) := by
  refine ⟨fun h => by simp [mergeSkipInit, h], fun h => by simp [mergeSkipInit, h], ?_⟩
  by_cases h : chDec = chSkip
  · subst h
    simp [mergeForward, mergeSkipInit, mergeCropShapes, mergeConvApply, broadcastDim_self,
      broadcastShape_self]
  · simp [mergeForward, mergeSkipInit, h, mergeCropShapes, mergeConvApply, broadcastDim_self,
      broadcastShape_self]

/-- Witness for C9 at concrete channel counts and a concrete spatial shape. -/
theorem C9_merge_additive_witness :
    mergeSkipInit 32 32 = MergeConv.identity ∧
    mergeSkipInit 32 16 =
      MergeConv.convNormActivation 16 32 [1, 1, 1] 3 "ReLU" "GroupNorm" 16 ∧
    mergeForward (mergeSkipInit 32 16) (32, [4, 8, 8]) (16, [4, 8, 8]) =
      some (32, [4, 8, 8]) :=
  ⟨(C9_merge_additive 32 32 []).1 rfl,
   (C9_merge_additive 32 16 []).2.1 (by decide),
   (C9_merge_additive 32 16 [4, 8, 8]).2.2⟩

/-! C2 -/

/-- C2: the claim says sign-inconsistent per-axis differences are surfaced as a
ShapeMismatch error at forward time.  The code has no such check: on tensor spatial
shape (2,3,4) and skip spatial shape (3,2,4) — neither direction is uniformly ≥ the
other — `MergeSkipConnAndAutoCrop.forward` computes crop slices from the
sign-inconsistent differences and the final addition silently broadcasts, returning a
(3,2,4) result instead of raising. -/
theorem C2_sign_inconsistent_not_raised :
    mergeForward (mergeSkipInit 16 16) (16, [2, 3, 4]) (16, [3, 2, 4]) =
      some (16, [3, 2, 4]) ∧
    ¬ ((shapeDiff [3, 2, 4] [2, 3, 4]).all (fun d => d ≥ 0) = true) ∧
    ¬ ((shapeDiff [2, 3, 4] [3, 2, 4]).all (fun d => d ≥ 0) = true) := by decide

/-! C1 -/

/-- C1 counterexample: for larger shape [5] against smaller shape [4] the diff is odd
and the crop slice is `slice(0, 4)` — the left crop is 0 (no element is removed at the
left end) while the right end loses `5 - 4 = 1` element, so the extra unit is trimmed
from the right side, refuting the claim's "the extra unit is trimmed from the left
side". -/
theorem C1_left_tiebreak_counterexample :
    cropBounds (shapeDiff [5] [4]) [5] = [(0, 4)] ∧
    ∀ p ∈ cropBounds (shapeDiff [5] [4]) [5], p.1 < 5 - p.2 := by decide

/-- C1 (amended): for equal-rank shapes with the larger ≥ the smaller on every axis,
the per-axis crop bounds satisfy `left = floor(diff/2)`,
`right = shape - floor(diff/2)` for even diff and `right = shape - (floor(diff/2)+1)`
for odd diff, hence `right - left` equals the smaller shape on every axis; for odd
diff the extra unit is trimmed from the right side (`shape - right = left + 1`). -/
theorem C1_crop_offsets (shp trg : List Nat)
    (hge : List.Forall₂ (fun t s => t ≤ s) trg shp) :
    List.Forall₂
      (fun (b : Int × Int) (st : Nat × Nat) =>
        b.1 = (((st.1 - st.2) / 2 : Nat) : Int) ∧
        ((st.1 - st.2) % 2 = 0 → b.2 = (st.1 : Int) - b.1) ∧
        ((st.1 - st.2) % 2 = 1 → b.2 = (st.1 : Int) - (b.1 + 1)) ∧
        b.2 - b.1 = (st.2 : Int) ∧
        ((st.1 - st.2) % 2 = 1 → (st.1 : Int) - b.2 = b.1 + 1))
      (cropBounds (shapeDiff shp trg) shp) (shp.zip trg) := by
  induction hge with
  | nil => simp [cropBounds, shapeDiff]
  | @cons t s trg0 shp0 hts htail ih =>
      simp only [cropBounds, shapeDiff, List.zipWith_cons_cons, List.zip_cons_cons] at ih ⊢
      refine List.Forall₂.cons ?_ ih
      have hk : (s : Int) - (t : Int) = ((s - t : Nat) : Int) := by omega
      have h1 : pyHalf ((s - t : Nat) : Int) = (((s - t) / 2 : Nat) : Int) :=
        (Int.ofNat_tdiv _ _).symm
      have h2 : pyMod2 ((s - t : Nat) : Int) = (((s - t) % 2 : Nat) : Int) :=
        (Int.ofNat_emod _ _).symm
      rcases Nat.mod_two_eq_zero_or_one (s - t) with hpar | hpar
      · refine ⟨?_, ?_, ?_, ?_, ?_⟩ <;>
          simp only [hk, h1, h2, hpar, Nat.cast_zero, Nat.cast_one] <;>
          simp <;> omega
      · refine ⟨?_, ?_, ?_, ?_, ?_⟩ <;>
          simp only [hk, h1, h2, hpar, Nat.cast_zero, Nat.cast_one] <;>
          simp <;> omega

/-- Witness for C1 at the concrete shapes [7,6,5] (larger) and [4,4,5] (smaller). -/
theorem C1_crop_offsets_witness :
    List.Forall₂
      (fun (b : Int × Int) (st : Nat × Nat) =>
        b.1 = (((st.1 - st.2) / 2 : Nat) : Int) ∧
        ((st.1 - st.2) % 2 = 0 → b.2 = (st.1 : Int) - b.1) ∧
        ((st.1 - st.2) % 2 = 1 → b.2 = (st.1 : Int) - (b.1 + 1)) ∧
        b.2 - b.1 = (st.2 : Int) ∧
        ((st.1 - st.2) % 2 = 1 → (st.1 : Int) - b.2 = b.1 + 1))
      (cropBounds (shapeDiff [7, 6, 5] [4, 4, 5]) [7, 6, 5])
      ([7, 6, 5].zip [4, 4, 5]) :=
  C1_crop_offsets [7, 6, 5] [4, 4, 5]
    (List.Forall₂.cons (by decide)
      (List.Forall₂.cons (by decide) (List.Forall₂.cons (by decide) List.Forall₂.nil)))

/-! C3 -/

/-- C3: for branches declared at depths [0, 2, 2] the depth-to-index map is
0 ↦ [0], 2 ↦ [1, 2] (insertion order within a depth, declaration order across
depths); the forward pass (decode order deepest-first) returns each branch result at
its declared position, and "return inputs" mode appends the original inputs, in the
order received, after the computed outputs. -/
theorem C3_branch_router (α : Type) (evalHead : Nat → Nat → α) (inputs : List α) :
    buildBranchIdxs [0, 2, 2] = [(0, [0]), (2, [1, 2])] ∧
    forwardOutputs 3 [0, 2, 2] false evalHead inputs =
      [some (evalHead 0 0), some (evalHead 2 1), some (evalHead 2 2)] ∧
    forwardOutputs 3 [0, 2, 2] true evalHead inputs =
      [some (evalHead 0 0), some (evalHead 2 1), some (evalHead 2 2)] ++
        inputs.map some := by
  refine ⟨rfl, rfl, rfl⟩

/-! C4 -/

theorem zipWith_reverse_eq {α β γ : Type} (f : α → β → γ) :
    ∀ (l1 : List α) (l2 : List β), l1.length = l2.length →
      List.zipWith f l1.reverse l2.reverse = (List.zipWith f l1 l2).reverse := by
  intro l1
  induction l1 with
  | nil =>
      intro l2 h
      cases l2 with
      | nil => rfl
      | cons b l2 => simp at h
  | cons a l1 ih =>
      intro l2 h
      cases l2 with
      | nil => simp at h
      | cons b l2 =>
          have hlen : l1.length = l2.length := by simpa using h
          simp only [List.reverse_cons, List.zipWith_cons_cons]
          rw [List.zipWith_append f l1.reverse [a] l2.reverse [b] (by simp [hlen])]
          simp [ih l2 hlen]

theorem zipWith_pad_even (inS outS : List Nat)
    (h : List.Forall₂ (fun o t => o ≤ t ∧ (t - o) % 2 = 0) inS outS) :
    List.zipWith (fun (n : Nat) (p : Int × Int) => (p.1 + (n : Int) + p.2).toNat) inS
      ((shapeDiff outS inS).map (fun d => (pyHalf d, pyHalf d))) = outS := by
  induction h with
  | nil => rfl
  | @cons o t inS0 outS0 hot htail ih =>
      obtain ⟨hle, hev⟩ := hot
      simp only [shapeDiff, List.zipWith_cons_cons, List.map_cons] at ih ⊢
      rw [List.cons.injEq]
      refine ⟨?_, ih⟩
      have hk : (t : Int) - (o : Int) = ((t - o : Nat) : Int) := by omega
      have h1 : pyHalf ((t - o : Nat) : Int) = (((t - o) / 2 : Nat) : Int) :=
        (Int.ofNat_tdiv _ _).symm
      rw [hk, h1]
      omega

theorem applyPad_even (inS outS : List Nat)
    (h : List.Forall₂ (fun o t => o ≤ t ∧ (t - o) % 2 = 0) inS outS) :
    applyPad inS ((shapeDiff outS inS).reverse.map (fun d => (pyHalf d, pyHalf d))) =
      outS := by
  have hlen : inS.length = outS.length := h.length_eq
  have hdlen :
      inS.length =
        ((shapeDiff outS inS).map (fun d => (pyHalf d, pyHalf d))).length := by
    simp only [List.length_map, shapeDiff, List.length_zipWith]
    omega
  unfold applyPad
  rw [List.map_reverse, zipWith_reverse_eq _ _ _ hdlen, List.reverse_reverse]
  exact zipWith_pad_even inS outS h

theorem shapeDiff_all_of_even_le (inS outS : List Nat)
    (h : List.Forall₂ (fun o t => o ≤ t ∧ (t - o) % 2 = 0) inS outS) :
    (shapeDiff outS inS).all (fun d => d ≥ 0) = true ∧
    (shapeDiff outS inS).all (fun d => pyMod2 d = 0) = true := by
  induction h with
  | nil => exact ⟨rfl, rfl⟩
  | @cons o t inS0 outS0 hot htail ih =>
      obtain ⟨hle, hev⟩ := hot
      obtain ⟨ih1, ih2⟩ := ih
      have hcons :
          shapeDiff (t :: outS0) (o :: inS0) =
            ((t : Int) - (o : Int)) :: shapeDiff outS0 inS0 := rfl
      have hk : (t : Int) - (o : Int) = ((t - o : Nat) : Int) := by omega
      have hmod : pyMod2 ((t - o : Nat) : Int) = (((t - o) % 2 : Nat) : Int) :=
        (Int.ofNat_emod _ _).symm
      constructor
      · rw [hcons, List.all_cons, Bool.and_eq_true]
        exact ⟨by simp only [decide_eq_true_eq]; omega, ih1⟩
      · rw [hcons, List.all_cons, Bool.and_eq_true]
        refine ⟨?_, ih2⟩
        simp only [decide_eq_true_eq, hk, hmod, hev]
        rfl

/-- Helper: the value of one axis of `shapeDiff`. -/
theorem shapeDiff_getElem (a b : List Nat) (i : Nat) (h1 : i < a.length)
    (h2 : i < b.length) :
    (shapeDiff a b)[i]? = some ((a.get ⟨i, h1⟩ : Int) - (b.get ⟨i, h2⟩ : Int)) := by
  simp only [shapeDiff]
  rw [List.getElem?_zipWith, List.getElem?_eq_getElem h1, List.getElem?_eq_getElem h2]
  rfl

/-- C4: pad-to-match.  When the target spatial shape is ≥ the source on every axis
with an even difference, `AutoPad.forward` succeeds, the result's spatial shape equals
the target exactly, and any padding performed is symmetric (equal left and right halves
per axis) in constant mode with fill value 0.  When some axis has the target smaller
than the source or an odd difference, the call fails. -/
theorem C4_autopad (inFull outFull : List Nat) :
    (List.Forall₂ (fun o t => o ≤ t ∧ (t - o) % 2 = 0) (inFull.drop 2)
        (outFull.drop 2) →
      ∃ plan shape,
        autoPadForward inFull outFull = some (plan, shape) ∧
        shape.drop 2 = outFull.drop 2 ∧
        ∀ pp ∈ plan,
          (∀ q ∈ pp.pad, q.1 = q.2) ∧ pp.mode = "constant" ∧ pp.value = 0) ∧
    ((inFull.drop 2).length = (outFull.drop 2).length →
      ∀ i (h1 : i < (inFull.drop 2).length) (h2 : i < (outFull.drop 2).length),
        ((outFull.drop 2).get ⟨i, h2⟩ < (inFull.drop 2).get ⟨i, h1⟩ ∨
          ((outFull.drop 2).get ⟨i, h2⟩ - (inFull.drop 2).get ⟨i, h1⟩) % 2 = 1) →
        autoPadForward inFull outFull = none) := by
  constructor
  · intro h
    by_cases heq : inFull.drop 2 = outFull.drop 2
    · refine ⟨none, inFull, ?_, ?_, ?_⟩
      · simp [autoPadForward, heq]
      · rw [heq]
      · intro pp hpp; simp at hpp
    · obtain ⟨hall1, hall2⟩ := shapeDiff_all_of_even_le _ _ h
      have hne : (inFull.drop 2) ≠ [] := by
        intro h0
        apply heq
        have := h.length_eq
        rw [h0] at this ⊢
        exact (List.length_eq_zero.mp this.symm).symm
      have htk : (inFull.take 2).length = 2 := by
        have : 2 < inFull.length := by
          have h3 := List.length_drop 2 inFull
          cases hcast : (inFull.drop 2).length with
          | zero => exact absurd (List.length_eq_zero.mp hcast) hne
          | succ k => omega
        simp [List.length_take]
        omega
      have heval :
          autoPadForward inFull outFull =
            some (some { pad := (shapeDiff (outFull.drop 2) (inFull.drop 2)).reverse.map
                           (fun d => (pyHalf d, pyHalf d)),
                         mode := "constant", value := 0 },
                  inFull.take 2 ++
                    applyPad (inFull.drop 2)
                      ((shapeDiff (outFull.drop 2) (inFull.drop 2)).reverse.map
                        (fun d => (pyHalf d, pyHalf d)))) := by
        simp only [autoPadForward, hall1, hall2]
        rw [if_neg heq]
        simp
      refine ⟨_, _, heval, ?_, ?_⟩
      · rw [List.drop_left' htk]
        exact applyPad_even _ _ h
      · intro pp hpp
        have hpp2 : { pad := (shapeDiff (outFull.drop 2) (inFull.drop 2)).reverse.map
                        (fun d => (pyHalf d, pyHalf d)),
                      mode := "constant", value := 0 : PadPlan } = pp := by
          simpa using hpp
        subst hpp2
        refine ⟨?_, rfl, rfl⟩
        intro q hq
        obtain ⟨d, _, rfl⟩ := List.mem_map.mp hq
        rfl
  · intro hlen i h1 h2 hbad
    by_cases heq : inFull.drop 2 = outFull.drop 2
    · exfalso
      have hget : (outFull.drop 2).get ⟨i, h2⟩ = (inFull.drop 2).get ⟨i, h1⟩ := by
        have h2i : i < (inFull.drop 2).length := h1
        calc (outFull.drop 2).get ⟨i, h2⟩
            = (inFull.drop 2).get ⟨i, heq ▸ h2⟩ := by
              congr 1
              · exact heq.symm
              · exact (Fin.heq_ext_iff (by rw [heq])).mpr rfl
          _ = (inFull.drop 2).get ⟨i, h1⟩ := rfl
      rcases hbad with hlt | hodd
      · omega
      · rw [hget] at hodd
        omega
    · have hdmem :
          ((outFull.drop 2).get ⟨i, h2⟩ : Int) - ((inFull.drop 2).get ⟨i, h1⟩ : Int) ∈
            shapeDiff (outFull.drop 2) (inFull.drop 2) :=
        List.getElem?_mem (shapeDiff_getElem _ _ i h2 h1)
      cases hall1 : (shapeDiff (outFull.drop 2) (inFull.drop 2)).all
          (fun d => d ≥ 0) with
      | false => simp [autoPadForward, heq, hall1]
      | true =>
          have hge := List.all_eq_true.mp hall1 _ hdmem
          simp only [decide_eq_true_eq] at hge
          cases hall2 : (shapeDiff (outFull.drop 2) (inFull.drop 2)).all
              (fun d => pyMod2 d = 0) with
          | false => simp [autoPadForward, heq, hall1, hall2]
          | true =>
              exfalso
              have hmod := List.all_eq_true.mp hall2 _ hdmem
              simp only [decide_eq_true_eq] at hmod
              rcases hbad with hlt | hodd
              · omega
              · have hk :
                    ((outFull.drop 2).get ⟨i, h2⟩ : Int) -
                        ((inFull.drop 2).get ⟨i, h1⟩ : Int) =
                      (((outFull.drop 2).get ⟨i, h2⟩ -
                          (inFull.drop 2).get ⟨i, h1⟩ : Nat) : Int) := by omega
                rw [hk] at hmod
                have : ((((outFull.drop 2).get ⟨i, h2⟩ -
                    (inFull.drop 2).get ⟨i, h1⟩) % 2 : Nat) : Int) = 0 := by
                  rw [← hmod]
                  exact (Int.ofNat_emod _ _).symm
                omega

/-- Witness for C4: a successful symmetric pad and a rejected odd difference. -/
theorem C4_autopad_witness :
    (∃ plan shape,
        autoPadForward [1, 8, 4, 6, 6] [1, 8, 8, 6, 8] = some (plan, shape) ∧
        shape.drop 2 = [1, 8, 8, 6, 8].drop 2 ∧
        ∀ pp ∈ plan,
          (∀ q ∈ pp.pad, q.1 = q.2) ∧ pp.mode = "constant" ∧ pp.value = 0) ∧
    autoPadForward [1, 8, 5, 6, 6] [1, 8, 8, 6, 8] = none :=
  ⟨(C4_autopad [1, 8, 4, 6, 6] [1, 8, 8, 6, 8]).1 (by decide),
   (C4_autopad [1, 8, 5, 6, 6] [1, 8, 8, 6, 8]).2 (by decide) 0 (by decide) (by decide)
     (Or.inr (by decide))⟩

/-! C5 -/

/-- C5 counterexample: with a crop window configured for depth 0 and none for depth 1,
the upsampling module built for depth 0 applies no crop (the code looks up
`decoder_crops.get(depth+1)`), refuting "applies the crop window configured for that
depth d". -/
theorem C5_crop_depth_counterexample :
    (constructUpsamplingModule [16, 32] [[2, 2, 2]] [(0, "c")] "nearest" 0).map
        (fun p => p.2.cropSlice) = some none ∧
    cropsGet [(0, "c")] 0 = some "c" := by decide

/-- C5 (amended): every successfully built upsampling stage at depth d is a 1×1×1
channel-reduction conv from decoder level d+1's channel count to level d's, followed by
an `UpsampleAndCrop` resampler with the scale factor configured for depth d and the
crop window configured for depth d+1 (not depth d). -/
theorem C5_upsampling_stage (decoderFmaps : List Nat) (scaleFactors : List (List Nat))
    (decoderCrops : List (Nat × CropSlice)) (mode : String) (depth : Nat)
    (h : (constructUpsamplingModule decoderFmaps scaleFactors decoderCrops mode
        depth).isSome) :
    ∃ fIn fOut sf,
      decoderFmaps[depth + 1]? = some fIn ∧
      decoderFmaps[depth]? = some fOut ∧
      scaleFactors[depth]? = some sf ∧
      constructUpsamplingModule decoderFmaps scaleFactors decoderCrops mode depth =
        some ({ inCh := fIn, outCh := fOut, kernelSize := KSize.shape [1, 1, 1],
                dim := 3, activation := "ReLU", normalization := some "GroupNorm",
                nbNormGroups := some 16 },
              { scaleFactor := sf, mode := mode,
                cropSlice := cropsGet decoderCrops (depth + 1) }) := by
  cases hA : decoderFmaps[depth + 1]? with
  | none =>
      exfalso
      have hval : constructUpsamplingModule decoderFmaps scaleFactors decoderCrops mode
          depth = none := by
        unfold constructUpsamplingModule
        rw [hA]
      rw [hval] at h
      simp at h
  | some fIn =>
      cases hB : decoderFmaps[depth]? with
      | none =>
          exfalso
          have hval : constructUpsamplingModule decoderFmaps scaleFactors decoderCrops
              mode depth = none := by
            unfold constructUpsamplingModule
            rw [hA, hB]
          rw [hval] at h
          simp at h
      | some fOut =>
          cases hC : scaleFactors[depth]? with
          | none =>
              exfalso
              have hval : constructUpsamplingModule decoderFmaps scaleFactors
                  decoderCrops mode depth = none := by
                unfold constructUpsamplingModule
                rw [hA, hB, hC]
              rw [hval] at h
              simp at h
          | some sf =>
              have hval : constructUpsamplingModule decoderFmaps scaleFactors
                  decoderCrops mode depth =
                  (if sf[0]? = some 1 ∧ sf[1]? ≠ sf[2]? then none
                   else
                     some ({ inCh := fIn, outCh := fOut,
                             kernelSize := KSize.shape [1, 1, 1], dim := 3,
                             activation := "ReLU", normalization := some "GroupNorm",
                             nbNormGroups := some 16 },
                           { scaleFactor := sf, mode := mode,
                             cropSlice := cropsGet decoderCrops (depth + 1) })) := by
                unfold constructUpsamplingModule
                rw [hA, hB, hC]
              by_cases hcond : sf[0]? = some 1 ∧ sf[1]? ≠ sf[2]?
              · exfalso
                rw [hval, if_pos hcond] at h
                simp at h
              · refine ⟨fIn, fOut, sf, rfl, rfl, rfl, ?_⟩
                rw [hval, if_neg hcond]

/-- Witness for C5 at a concrete configuration with a crop at depth 1. -/
theorem C5_upsampling_stage_witness :
    ∃ fIn fOut sf,
      ([16, 32] : List Nat)[0 + 1]? = some fIn ∧
      ([16, 32] : List Nat)[0]? = some fOut ∧
      ([[2, 2, 2]] : List (List Nat))[0]? = some sf ∧
      constructUpsamplingModule [16, 32] [[2, 2, 2]] [(1, "c")] "nearest" 0 =
        some ({ inCh := fIn, outCh := fOut, kernelSize := KSize.shape [1, 1, 1],
                dim := 3, activation := "ReLU", normalization := some "GroupNorm",
                nbNormGroups := some 16 },
              { scaleFactor := sf, mode := "nearest",
                cropSlice := cropsGet [(1, "c")] (0 + 1) }) :=
  C5_upsampling_stage [16, 32] [[2, 2, 2]] [(1, "c")] "nearest" 0 (by decide)

/-! C6 -/

/-- C6 counterexample: expanding the spec §8 example dict returns a resolved list but
leaves the caller-supplied dict changed — the `"global"` entry has been popped — so the
expansion is not a pure transform on the caller's configuration object. -/
theorem C6_mutation_counterexample :
    expandBranchSpecs sigmoidBranchesDict =
      some (sigmoidRemainingDict, sigmoidResolvedSpecs) ∧
    sigmoidRemainingDict ≠ sigmoidBranchesDict :=
  ⟨by decide, by decide⟩

/-- C6 (amended): the expansion produces a new fully-resolved list of branch specs, but
it mutates the caller-supplied dict exactly by removing the `"global"` key; the other
entries are untouched. -/
theorem C6_expansion_pops_global (d rest : BranchesDict) (specs : List PySpec)
    (h : expandBranchSpecs d = some (rest, specs)) :
    rest = d.eraseP (fun p => p.1 == PyKey.kStr "global") := by
  cases hp : dictPop d (PyKey.kStr "global") with
  | none =>
      exfalso
      have hval : expandBranchSpecs d = none := by
        unfold expandBranchSpecs
        rw [hp]
      rw [hval] at h
      exact Option.noConfusion h
  | some pr =>
      obtain ⟨g, rest0⟩ := pr
      have hrest0 : rest0 = d.eraseP (fun p => p.1 == PyKey.kStr "global") := by
        unfold dictPop at hp
        cases hf : dictFind d (PyKey.kStr "global") with
        | none =>
            rw [hf] at hp
            exact Option.noConfusion hp
        | some v =>
            rw [hf] at hp
            have hp2 : some (v, d.eraseP (fun p => p.1 == PyKey.kStr "global")) =
                some (g, rest0) := hp
            injection hp2 with hp2
            exact (congrArg Prod.snd hp2.symm)
      have hval : expandBranchSpecs d =
          (match resolveSlots rest0 g rest0.length with
           | none => none
           | some specs2 => some (rest0, specs2)) := by
        unfold expandBranchSpecs
        rw [hp]
      cases hr : resolveSlots rest0 g rest0.length with
      | none =>
          exfalso
          rw [hval, hr] at h
          exact Option.noConfusion h
      | some specs0 =>
          rw [hval, hr] at h
          have h2 : ((rest0, specs0) : BranchesDict × List PySpec) = (rest, specs) := by
            injection h
          rw [← hrest0]
          exact (congrArg Prod.fst h2.symm)

/-- Witness for C6 at the spec §8 example dict. -/
theorem C6_expansion_pops_global_witness :
    sigmoidRemainingDict =
      sigmoidBranchesDict.eraseP (fun p => p.1 == PyKey.kStr "global") :=
  C6_expansion_pops_global sigmoidBranchesDict sigmoidRemainingDict
    sigmoidResolvedSpecs (by decide)

/-! C7 -/

theorem specLookup_specSet_self (s : PySpec) (k : String) (v : PyVal) :
    specLookup (specSet s k v) k = some v := by
  induction s with
  | nil => simp [specSet, specLookup]
  | cons p rest ih =>
      by_cases h : p.1 = k
      · simp [specSet, h, specLookup]
      · simp only [specSet, if_neg h, specLookup]
        rw [List.find?_cons_of_neg _ (by simp [h])]
        exact ih

theorem specLookup_specSet_ne (s : PySpec) (k k2 : String) (v : PyVal) (h : k2 ≠ k) :
    specLookup (specSet s k v) k2 = specLookup s k2 := by
  induction s with
  | nil =>
      simp only [specSet, specLookup]
      rw [List.find?_cons_of_neg _ (by simp [Ne.symm h])]
  | cons p rest ih =>
      by_cases hp : p.1 = k
      · simp only [specSet, if_pos hp, specLookup]
        rw [List.find?_cons_of_neg _ (by simp [hp, Ne.symm h]),
          List.find?_cons_of_neg _ (by simp [hp, Ne.symm h])]
      · simp only [specSet, if_neg hp, specLookup] at ih ⊢
        by_cases hq : p.1 = k2
        · rw [List.find?_cons_of_pos _ (by simp [hq]),
            List.find?_cons_of_pos _ (by simp [hq])]
        · rw [List.find?_cons_of_neg _ (by simp [hq]),
            List.find?_cons_of_neg _ (by simp [hq])]
          exact ih

theorem specLookup_eq_none (s : PySpec) (k : String) (h : k ∉ s.map Prod.fst) :
    specLookup s k = none := by
  have hf : s.find? (fun p => p.1 == k) = none := by
    rw [List.find?_eq_none]
    intro x hx
    simp only [beq_iff_eq]
    intro he
    exact h (he ▸ List.mem_map_of_mem Prod.fst hx)
  simp [specLookup, hf]

theorem specLookup_specUpdate (ov : PySpec) :
    ∀ (g : PySpec) (k : String), (ov.map Prod.fst).Nodup →
      specLookup (specUpdate g ov) k =
        (match specLookup ov k with
         | some v => some v
         | none => specLookup g k) := by
  induction ov with
  | nil => intro g k _; rfl
  | cons p rest ih =>
      intro g k hnd
      rw [List.map_cons, List.nodup_cons] at hnd
      obtain ⟨hp1, hnd2⟩ := hnd
      have hupd : specUpdate g (p :: rest) = specUpdate (specSet g p.1 p.2) rest := rfl
      rw [hupd, ih _ k hnd2]
      by_cases hk : k = p.1
      · have hrest : specLookup rest k = none := by
          rw [hk]
          exact specLookup_eq_none rest p.1 hp1
        have hhead : specLookup (p :: rest) k = some p.2 := by
          simp only [specLookup]
          rw [List.find?_cons_of_pos _ (by simp [hk])]
          rfl
        rw [hrest, hhead, hk]
        exact specLookup_specSet_self g p.1 p.2
      · have hhead : specLookup (p :: rest) k = specLookup rest k := by
          simp only [specLookup]
          rw [List.find?_cons_of_neg _ (by simp [Ne.symm hk])]
        rw [hhead]
        cases hrk : specLookup rest k with
        | some v => rfl
        | none => exact specLookup_specSet_ne g p.1 k p.2 hk

theorem mapM_option_eq_none {α β : Type} (f : α → Option β) (l : List α) (x : α)
    (hx : x ∈ l) (hf : f x = none) : l.mapM f = none := by
  induction l with
  | nil => cases hx
  | cons a rest ih =>
      rw [List.mapM_cons]
      rcases List.mem_cons.mp hx with rfl | hx2
      · rw [hf]; rfl
      · cases hfa : f a with
        | none => rfl
        | some b =>
            rw [ih hx2]
            rfl

theorem mapM_option_length {α β : Type} (f : α → Option β) :
    ∀ (l : List α) (r : List β), l.mapM f = some r → r.length = l.length := by
  intro l
  induction l with
  | nil =>
      intro r h
      have h2 : some ([] : List β) = some r := h
      injection h2 with h2
      rw [← h2]
      rfl
  | cons a rest ih =>
      intro r h
      rw [List.mapM_cons] at h
      cases hfa : f a with
      | none => rw [hfa] at h; exact Option.noConfusion h
      | some b =>
          rw [hfa] at h
          cases hrest : rest.mapM f with
          | none => rw [hrest] at h; exact Option.noConfusion h
          | some rs =>
              rw [hrest] at h
              have h2 : some (b :: rs) = some r := h
              injection h2 with h2
              rw [← h2]
              simp [ih rs hrest]

theorem expandBranchSpecs_some_inv (d rest : BranchesDict) (specs : List PySpec)
    (h : expandBranchSpecs d = some (rest, specs)) :
    ∃ g, dictPop d (PyKey.kStr "global") = some (g, rest) ∧
      resolveSlots rest g rest.length = some specs := by
  cases hp : dictPop d (PyKey.kStr "global") with
  | none =>
      exfalso
      have hval : expandBranchSpecs d = none := by
        unfold expandBranchSpecs
        rw [hp]
      rw [hval] at h
      exact Option.noConfusion h
  | some pr =>
      obtain ⟨g, rest0⟩ := pr
      have hval : expandBranchSpecs d =
          (match resolveSlots rest0 g rest0.length with
           | none => none
           | some specs2 => some (rest0, specs2)) := by
        unfold expandBranchSpecs
        rw [hp]
      cases hr : resolveSlots rest0 g rest0.length with
      | none =>
          exfalso
          rw [hval, hr] at h
          exact Option.noConfusion h
      | some specs0 =>
          rw [hval, hr] at h
          have h2 : ((rest0, specs0) : BranchesDict × List PySpec) = (rest, specs) := by
            injection h
          have hr0 : rest0 = rest := congrArg Prod.fst h2
          have hs0 : specs0 = specs := congrArg Prod.snd h2
          subst hr0
          subst hs0
          exact ⟨g, rfl, hr⟩

theorem expandBranchSpecs_length (d rest : BranchesDict) (specs : List PySpec)
    (h : expandBranchSpecs d = some (rest, specs)) : specs.length = rest.length := by
  obtain ⟨g, _, hres⟩ := expandBranchSpecs_some_inv d rest specs h
  have := mapM_option_length _ _ _ hres
  simpa using this

/-- C7: shorthand expansion semantics.  The spec §8 global-plus-override example
expands to two branches inheriting the Sigmoid activation; dict update makes override
fields win while inherited fields are kept; expansion yields one branch per non-global
key; a branch spec missing `out_channels` or `depth` fails the construction checks and
poisons the whole branch list; a dict whose numbered overrides do not cover every
declared slot fails to expand. -/
theorem C7_shorthand_semantics :
    expandBranchSpecs sigmoidBranchesDict =
      some (sigmoidRemainingDict, sigmoidResolvedSpecs) ∧
    (∀ (g ov : PySpec) (k : String), (ov.map Prod.fst).Nodup →
      specLookup (specUpdate g ov) k =
        (match specLookup ov k with
         | some v => some v
         | none => specLookup g k)) ∧
    (∀ (d rest : BranchesDict) (specs : List PySpec),
      expandBranchSpecs d = some (rest, specs) → specs.length = rest.length) ∧
    (∀ s : PySpec, specLookup s "out_channels" = none → checkBranchSpec s = none) ∧
    (∀ s : PySpec, specLookup s "depth" = none → checkBranchSpec s = none) ∧
    (∀ (specs : List PySpec) (s : PySpec), s ∈ specs → checkBranchSpec s = none →
      branchDepths specs = none) ∧
    expandBranchSpecs unresolvedSlotsDict = none := by
  refine ⟨by decide, ?_, ?_, ?_, ?_, ?_, by decide⟩
  · intro g ov k hnd
    exact specLookup_specUpdate ov g k hnd
  · intro d rest specs h
    exact expandBranchSpecs_length d rest specs h
  · intro s h
    unfold checkBranchSpec
    rw [h]
  · intro s h
    unfold checkBranchSpec
    cases ho : specLookup s "out_channels" with
    | none => rfl
    | some v => rw [h]
  · intro specs s hs h
    unfold branchDepths
    exact mapM_option_eq_none _ _ _ hs h

/-- Witness for C7 at concrete specs. -/
theorem C7_shorthand_semantics_witness :
    specLookup (specUpdate [("activation", PyVal.vStr "Sigmoid")]
        [("out_channels", PyVal.vInt 1), ("depth", PyVal.vInt 0)]) "activation" =
      some (PyVal.vStr "Sigmoid") ∧
    checkBranchSpec [("depth", PyVal.vInt 0)] = none ∧
    checkBranchSpec [("out_channels", PyVal.vInt 1)] = none ∧
    branchDepths [[("depth", PyVal.vInt 0)]] = none := by
  have h := C7_shorthand_semantics
  refine ⟨?_, ?_, ?_, ?_⟩
  · exact (h.2.1 [("activation", PyVal.vStr "Sigmoid")]
      [("out_channels", PyVal.vInt 1), ("depth", PyVal.vInt 0)] "activation"
        (by decide)).trans (by decide)
  · exact h.2.2.2.1 [("depth", PyVal.vInt 0)] (by decide)
  · exact h.2.2.2.2.1 [("out_channels", PyVal.vInt 1)] (by decide)
  · exact h.2.2.2.2.2.1 [[("depth", PyVal.vInt 0)]] [("depth", PyVal.vInt 0)]
      (by decide) (by decide)

/-! C8 -/

/-- C8: encoder stage input channels.  At depth 0 the stage starts from the raw input
channel count through a stem conv with flattened (1,5,5) kernel; at 0 < d <
number-of-multiscale-inputs the first residual block takes the previous encoder level's
channels plus the raw input channels; at deeper d it takes the previous level's
channels only, and no stem is present beyond depth 0. -/
theorem C8_encoder_channels (inChannels : Nat) (encoderFmaps : List Nat) (nbMulti : Nat)
    (resSpecs : List (List Bool)) (depth : Nat) (m : EncoderModule)
    (h : constructEncoderModule inChannels encoderFmaps nbMulti resSpecs depth =
      some m) :
    (depth = 0 → ∃ stem, m.firstConv = some stem ∧ stem.inCh = inChannels ∧
      stem.kernelSize = KSize.shape [1, 5, 5]) ∧
    (0 < depth → m.firstConv = none ∧
      ∀ b, m.resBlocks.head? = some b →
        ∃ prev, encoderFmaps[depth - 1]? = some prev ∧
          b.fIn = (if depth < nbMulti then prev + inChannels else prev)) := by
  cases hA : encoderFIn inChannels encoderFmaps nbMulti depth with
  | none =>
      exfalso
      have hval : constructEncoderModule inChannels encoderFmaps nbMulti resSpecs
          depth = none := by
        unfold constructEncoderModule
        rw [hA]
      rw [hval] at h
      exact Option.noConfusion h
  | some fIn =>
      cases hB : encoderFmaps[depth]? with
      | none =>
          exfalso
          have hval : constructEncoderModule inChannels encoderFmaps nbMulti resSpecs
              depth = none := by
            unfold constructEncoderModule
            rw [hA, hB]
          rw [hval] at h
          exact Option.noConfusion h
      | some fOut =>
          cases hC : resSpecs[depth]? with
          | none =>
              exfalso
              have hval : constructEncoderModule inChannels encoderFmaps nbMulti
                  resSpecs depth = none := by
                unfold constructEncoderModule
                rw [hA, hB, hC]
              rw [hval] at h
              exact Option.noConfusion h
          | some bs =>
              have hval : constructEncoderModule inChannels encoderFmaps nbMulti
                  resSpecs depth =
                  (if depth = 0 then
                    (concatenateResBlocks fOut fOut bs).map (fun blocks =>
                      { firstConv :=
                          some
                            { inCh := fIn, outCh := fOut,
                              kernelSize := KSize.shape [1, 5, 5], dim := 3,
                              activation := "ReLU",
                              normalization := some "GroupNorm",
                              nbNormGroups := some 16 },
                        resBlocks := blocks })
                  else
                    (concatenateResBlocks fIn fOut bs).map (fun blocks =>
            { firstConv := none, resBlocks := blocks })) := by
                unfold constructEncoderModule
                rw [hA, hB, hC]
              rw [hval] at h
              by_cases hd : depth = 0
              · rw [if_pos hd] at h
                have hfin : fIn = inChannels := by
                  rw [hd] at hA
                  unfold encoderFIn at hA
                  rw [if_pos rfl] at hA
                  have h2 : some inChannels = some fIn := hA
                  injection h2 with h2
                  exact h2.symm
                obtain ⟨blocks, hcr, hm⟩ := Option.map_eq_some'.mp h
                subst hm
                constructor
                · intro _
                  exact ⟨_, rfl, hfin, rfl⟩
                · intro h0
                  rw [hd] at h0
                  exact absurd h0 (lt_irrefl 0)
              · rw [if_neg hd] at h
                obtain ⟨blocks, hcr, hm⟩ := Option.map_eq_some'.mp h
                subst hm
                constructor
                · intro h0
                  exact absurd h0 hd
                · intro h0
                  refine ⟨rfl, ?_⟩
                  intro b hb
                  have hbs : blocks = resBlocksChain fIn fOut bs := by
                    unfold concatenateResBlocks at hcr
                    by_cases h16 : fOut % 16 = 0
                    · rw [if_pos h16] at hcr
                      have h3 : some (resBlocksChain fIn fOut bs) = some blocks :=
                        hcr
                      injection h3 with h3
                      exact h3.symm
                    · rw [if_neg h16] at hcr
                      exact Option.noConfusion hcr
                  subst hbs
                  cases bs with
                  | nil => exact Option.noConfusion hb
                  | cons b0 bs0 =>
                      have h3 : some
                          ({ fIn := fIn, fInner := fOut,
                             preKernelSize := if b0 then [3, 3, 3] else [1, 3, 3],
                             kernelSize := if b0 then [3, 3, 3] else [1, 3, 3],
                             activation := "ReLU", normalization := "GroupNorm",
                             nbNormGroups := 16 } : ResBlockSpec) = some b := hb
                      have hb2 : b =
                          { fIn := fIn, fInner := fOut,
                            preKernelSize := if b0 then [3, 3, 3] else [1, 3, 3],
                            kernelSize := if b0 then [3, 3, 3] else [1, 3, 3],
                            activation := "ReLU", normalization := "GroupNorm",
                            nbNormGroups := 16 } := by
                        injection h3 with h3
                        exact h3.symm
                      unfold encoderFIn at hA
                      rw [if_neg hd] at hA
                      by_cases hlt : depth < nbMulti
                      · rw [if_pos hlt] at hA
                        obtain ⟨prev, hprev, heq⟩ := Option.map_eq_some'.mp hA
                        refine ⟨prev, hprev, ?_⟩
                        rw [if_pos hlt, hb2, ← heq]
                      · rw [if_neg hlt] at hA
                        refine ⟨fIn, hA, ?_⟩
                        rw [if_neg hlt, hb2]

/-- Witness for C8 at a concrete deeper-than-zero multiscale depth. -/
theorem C8_encoder_channels_witness :
    ((1 : Nat) = 0 → ∃ stem,
      (EncoderModule.mk none
        [ResBlockSpec.mk 19 32 [3, 3, 3] [3, 3, 3] "ReLU" "GroupNorm" 16]).firstConv =
          some stem ∧ stem.inCh = 3 ∧ stem.kernelSize = KSize.shape [1, 5, 5]) ∧
    (0 < 1 →
      (EncoderModule.mk none
        [ResBlockSpec.mk 19 32 [3, 3, 3] [3, 3, 3] "ReLU" "GroupNorm" 16]).firstConv =
          none ∧
      ∀ b,
        (EncoderModule.mk none
          [ResBlockSpec.mk 19 32 [3, 3, 3] [3, 3, 3] "ReLU" "GroupNorm" 16]).resBlocks.head? =
            some b →
        ∃ prev, ([16, 32] : List Nat)[1 - 1]? = some prev ∧
          b.fIn = (if 1 < 2 then prev + 3 else prev)) :=
  C8_encoder_channels 3 [16, 32] 2 [[true], [true]] 1
    (EncoderModule.mk none
      [ResBlockSpec.mk 19 32 [3, 3, 3] [3, 3, 3] "ReLU" "GroupNorm" 16])
    (by decide)

/-! C10 -/

theorem foldl_set_getElem_ne {α : Type} (v : Nat → Option α) :
    ∀ (idxs : List Nat) (outs : List (Option α)) (i : Nat), i ∉ idxs →
      (idxs.foldl (fun acc j => acc.set j (v j)) outs)[i]? = outs[i]? := by
  intro idxs
  induction idxs with
  | nil => intro outs i _; rfl
  | cons j rest ih =>
      intro outs i hi
      simp only [List.mem_cons, not_or] at hi
      obtain ⟨hij, hrest⟩ := hi
      rw [List.foldl_cons, ih (outs.set j (v j)) i hrest]
      exact List.getElem?_set_ne (fun he => hij he.symm)

theorem foldl_set_length {α : Type} (v : Nat → Option α) :
    ∀ (idxs : List Nat) (outs : List (Option α)),
      (idxs.foldl (fun acc j => acc.set j (v j)) outs).length = outs.length := by
  intro idxs
  induction idxs with
  | nil => intro outs; rfl
  | cons j rest ih =>
      intro outs
      rw [List.foldl_cons, ih, List.length_set]

theorem scatterStep_getElem_none {α : Type} (bidx : List (Int × List Nat))
    (evalHead : Nat → Nat → α) (outs : List (Option α)) (d : Nat) (i : Nat)
    (h : ∀ l, idxsGet bidx (d : Int) = some l → i ∉ l) :
    (scatterStep bidx evalHead outs d)[i]? = outs[i]? := by
  unfold scatterStep
  cases hf : idxsGet bidx (d : Int) with
  | none => rfl
  | some idxs => exact foldl_set_getElem_ne _ idxs outs i (h idxs hf)

theorem scatterStep_length {α : Type} (bidx : List (Int × List Nat))
    (evalHead : Nat → Nat → α) (outs : List (Option α)) (d : Nat) :
    (scatterStep bidx evalHead outs d).length = outs.length := by
  unfold scatterStep
  cases hf : idxsGet bidx (d : Int) with
  | none => rfl
  | some idxs => exact foldl_set_length _ idxs outs

theorem scatter_foldl_getElem_none {α : Type} (bidx : List (Int × List Nat))
    (evalHead : Nat → Nat → α) :
    ∀ (ds : List Nat) (outs : List (Option α)) (i : Nat),
      (∀ d ∈ ds, ∀ l, idxsGet bidx (d : Int) = some l → i ∉ l) →
      (ds.foldl (scatterStep bidx evalHead) outs)[i]? = outs[i]? := by
  intro ds
  induction ds with
  | nil => intro outs i _; rfl
  | cons d rest ih =>
      intro outs i h
      rw [List.foldl_cons, ih _ i (fun d2 hd2 => h d2 (List.mem_cons_of_mem _ hd2)),
        scatterStep_getElem_none bidx evalHead outs d i (h d (List.mem_cons_self d rest))]

theorem scatter_foldl_length {α : Type} (bidx : List (Int × List Nat))
    (evalHead : Nat → Nat → α) :
    ∀ (ds : List Nat) (outs : List (Option α)),
      (ds.foldl (scatterStep bidx evalHead) outs).length = outs.length := by
  intro ds
  induction ds with
  | nil => intro outs; rfl
  | cons d rest ih =>
      intro outs
      rw [List.foldl_cons, ih, scatterStep_length]

theorem buildBranchIdxsAux_mem :
    ∀ (depths : List Int) (start : Nat) (m : List (Int × List Nat)) (d : Int)
      (l : List Nat) (j : Nat),
      (d, l) ∈ buildBranchIdxsAux start depths m → j ∈ l →
      (∃ l0, (d, l0) ∈ m ∧ j ∈ l0) ∨
      ∃ k, ∃ hk : k < depths.length, depths.get ⟨k, hk⟩ = d ∧ j = start + k := by
  intro depths
  induction depths with
  | nil =>
      intro start m d l j hmem hj
      exact Or.inl ⟨l, hmem, hj⟩
  | cons e rest ih =>
      intro start m d l j hmem hj
      have hstep := ih (start + 1) (branchIdxsAppend m e start) d l j hmem hj
      rcases hstep with ⟨l0, hl0, hjl0⟩ | ⟨k, hk, hdk, hjk⟩
      · unfold branchIdxsAppend at hl0
        cases hkey : m.any (fun p => p.1 == e) with
        | false =>
            rw [hkey] at hl0
            simp only [Bool.false_eq_true, if_false] at hl0
            rcases List.mem_append.mp hl0 with h1 | h1
            · exact Or.inl ⟨l0, h1, hjl0⟩
            · have h2 : (d, l0) = (e, [start]) := by simpa using h1
              have hde : d = e := congrArg Prod.fst h2
              have hls : l0 = [start] := congrArg Prod.snd h2
              have hjs : j = start := by
                rw [hls] at hjl0
                simpa using hjl0
              refine Or.inr ⟨0, by simp, ?_, by omega⟩
              simpa using hde.symm
        | true =>
            rw [hkey] at hl0
            simp only [if_true] at hl0
            rcases List.mem_map.mp hl0 with ⟨p, hpm, hpe⟩
            cases hb : p.1 == e with
            | false =>
                rw [hb] at hpe
                simp only [Bool.false_eq_true, if_false] at hpe
                rw [hpe] at hpm
                exact Or.inl ⟨l0, hpm, hjl0⟩
            | true =>
                rw [hb] at hpe
                simp only [if_true] at hpe
                have hd2 : p.1 = d := congrArg Prod.fst hpe
                have hl2 : p.2 ++ [start] = l0 := congrArg Prod.snd hpe
                rw [← hl2] at hjl0
                rcases List.mem_append.mp hjl0 with hj2 | hj2
                · refine Or.inl ⟨p.2, ?_, hj2⟩
                  have hpdec : p = (d, p.2) := by
                    cases p with
                    | mk p1 p2 =>
                        simp only [Prod.mk.injEq]
                        exact ⟨hd2, trivial⟩
                  rw [← hpdec]
                  exact hpm
                · have he : p.1 = e := by simpa using hb
                  have hde : d = e := by rw [← hd2, he]
                  have hjs : j = start := by simpa using hj2
                  refine Or.inr ⟨0, by simp, ?_, by omega⟩
                  simpa using hde.symm
      · refine Or.inr ⟨k + 1, by simpa using Nat.succ_lt_succ hk, ?_, by omega⟩
        simpa using hdk

theorem idxsGet_mem (m : List (Int × List Nat)) (d : Int) (l : List Nat)
    (h : idxsGet m d = some l) : (d, l) ∈ m := by
  unfold idxsGet at h
  cases hf : m.find? (fun p => p.1 == d) with
  | none => rw [hf] at h; exact Option.noConfusion h
  | some p =>
      rw [hf] at h
      have h2 : some p.2 = some l := h
      injection h2 with h2
      have hp := List.find?_some hf
      have hpd : p.1 = d := by simpa using hp
      have hm := List.mem_of_find?_eq_some hf
      have hpdec : p = (d, l) := by
        cases p with
        | mk p1 p2 =>
            simp only [Prod.mk.injEq]
            exact ⟨hpd, h2⟩
      rw [← hpdec]
      exact hm

/-- C10: a branch declared at the model's own depth (the bottleneck level) is
constructible — its head is built from `decoder_fmaps[depth]`, a valid index — but the
decode loop only visits depths 0 .. depth-1, so the forward pass never writes that
branch's position and the returned output collection holds `none` there. -/
theorem C10_bottleneck_branch (α : Type) (modelDepth : Nat) (depths : List Int)
    (decoderFmaps : List Nat) (decoderCrops : List (Nat × CropSlice)) (outCh : Nat)
    (act : String) (norm : Option String) (returnInput : Bool)
    (evalHead : Nat → Nat → α) (inputs : List α) (i : Nat) (hi : i < depths.length)
    (hd : depths.get ⟨i, hi⟩ = (modelDepth : Int))
    (hfm : decoderFmaps.length = modelDepth + 1) :
    (constructOutputBranch decoderFmaps decoderCrops modelDepth outCh act norm).isSome ∧
    (forwardOutputs modelDepth depths returnInput evalHead inputs)[i]? = some none := by
  constructor
  · have hlt : modelDepth < decoderFmaps.length := by omega
    unfold constructOutputBranch
    rw [List.getElem?_eq_getElem hlt]
    rfl
  · have hnone : ∀ d ∈ decodeDepths modelDepth, ∀ l,
        idxsGet (buildBranchIdxs depths) (d : Int) = some l → i ∉ l := by
      intro d hdmem l hfind hmem
      have hdlt : d < modelDepth := by
        unfold decodeDepths decoderModuleCount at hdmem
        exact List.mem_range.mp (List.mem_reverse.mp hdmem)
      have hentry := idxsGet_mem _ _ _ hfind
      have hcases := buildBranchIdxsAux_mem depths 0 [] (d : Int) l i hentry hmem
      rcases hcases with ⟨l0, hl0, _⟩ | ⟨k, hk, hdk, hik⟩
      · simp at hl0
      · have hki : k = i := by omega
        subst hki
        have hcast : ((d : Int)) = ((modelDepth : Int)) := by
          rw [← hdk, hd]
        omega
    have houts : (scatterOutputs (buildBranchIdxs depths) depths.length evalHead
        (decodeDepths modelDepth))[i]? = some none := by
      unfold scatterOutputs
      rw [scatter_foldl_getElem_none _ _ _ _ i hnone]
      exact List.getElem?_replicate_of_lt hi
    have hlen : (scatterOutputs (buildBranchIdxs depths) depths.length evalHead
        (decodeDepths modelDepth)).length = depths.length := by
      unfold scatterOutputs
      rw [scatter_foldl_length]
      exact List.length_replicate _ _
    unfold forwardOutputs
    cases returnInput with
    | false => exact houts
    | true =>
        rw [if_pos rfl, List.getElem?_append_left (by rw [hlen]; exact hi)]
        exact houts

/-- Witness for C10: model depth 2, branches at depths [0, 2]; the depth-2 branch's
head is constructible but its output slot stays `none`. -/
theorem C10_bottleneck_branch_witness :
    (constructOutputBranch [16, 16, 32] [] 2 1 "Sigmoid" none).isSome ∧
    (forwardOutputs 2 [0, 2] false (fun d j => (d, j)) ([] : List (Nat × Nat)))[1]? =
      some none :=
  C10_bottleneck_branch (Nat × Nat) 2 [0, 2] [16, 16, 32] [] 1 "Sigmoid" none false
    (fun d j => (d, j)) [] 1 (by decide) (by decide) (by decide)

end ConfNets
